import Mathlib

/-!
Shallow embedding of the core of the `prompt_optimizer` repository
(`src/prompt_optimizer/xml_utils.py`, `src/prompt_optimizer/optimizer.py`,
`src/prompt_optimizer/types.py`) in Lean 4, together with theorems settling
the frozen claims about the spec.

Strings are modelled as `List Char`; Python's `str.strip`, `str.lower`,
`float(...)` parsing and the two regular expressions used by the code
(`<{tag}>(.*?)</{tag}>` with `re.search`/`re.DOTALL`, and
`<test number="(\d+)">(.*?)</test>` with `re.findall`/`re.DOTALL`) are
modelled by explicit executable functions, faithful to leftmost /
non-greedy / non-overlapping match semantics.
-/

namespace PromptOptimizer

/-- Convert a Lean string literal to our working representation. -/
def str (s : String) : List Char := s.data

/-- Whitespace characters removed by Python's `str.strip()` (ASCII range). -/
def pyIsSpace (c : Char) : Bool :=
  c = ' ' || c = '\t' || c = '\n' || c = '\x0d' || c = '\x0b' || c = '\x0c'

/-- Python `str.strip()`: drop leading and trailing whitespace. -/
def pyStrip (s : List Char) : List Char :=
  ((s.dropWhile pyIsSpace).reverse.dropWhile pyIsSpace).reverse

/-- Python `str.lower()` (ASCII behaviour, which is all the code relies on). -/
def pyLower (s : List Char) : List Char := s.map Char.toLower

/-- Decidable check that `pat` is a leading segment of `s`. -/
def isPre : List Char → List Char → Bool
  | [], _ => true
  | _ :: _, [] => false
  | a :: as, b :: bs => a = b && isPre as bs

/-- Decidable check that `pat` occurs somewhere inside `s` as a contiguous block. -/
def occursIn (pat : List Char) : List Char → Bool
  | [] => isPre pat []
  | c :: t => isPre pat (c :: t) || occursIn pat t

/-- First index `≥ 0` (offset by the accumulator `n`) at which `pat` starts in `s`;
`none` when `pat` never occurs.  This is the leftmost-match search of `re.search`
restricted to a literal pattern. -/
def findSubAux (pat : List Char) : List Char → Nat → Option Nat
  | [], n => if isPre pat [] then some n else none
  | c :: t, n => if isPre pat (c :: t) then some n else findSubAux pat t (n + 1)

/-! ## xml_utils.py -/

/-- The literal opening marker `<{tag}>`. -/
def openTag (tag : List Char) : List Char := '<' :: (tag ++ ['>'])

/-- The literal closing marker `</{tag}>`. -/
def closeTag (tag : List Char) : List Char := '<' :: '/' :: (tag ++ ['>'])

/-- Model of `extract_xml_content(text, tag)`: Python
`re.search(f"<{tag}>(.*?)</{tag}>", text, re.DOTALL)`, returning the stripped
first group of the leftmost match, and `""` when there is no match.  The
leftmost match starts at the first occurrence of the opening marker, and the
non-greedy group ends at the first occurrence of the closing marker after it. -/
def extract_xml_content (text : List Char) (tag : List Char) : List Char :=
  let opn := openTag tag
  let cls := closeTag tag
  match findSubAux opn text 0 with
  | none => []
  | some i =>
    let cs := i + opn.length
    match findSubAux cls (text.drop cs) 0 with
    | none => []
    | some k => pyStrip ((text.drop cs).take k)

/-- Model of `parse_xml_response(response, tags)`: the dict comprehension
`{tag: extract_xml_content(response, tag) for tag in tags}`, modelled as an
association list in tag order. -/
def parse_xml_response (response : List Char) (tags : List (List Char)) :
    List (List Char × List Char) :=
  tags.map fun tag => (tag, extract_xml_content response tag)

/-- Tag set `ASSESSMENT_TAGS` from xml_utils.py. -/
def ASSESSMENT_TAGS : List (List Char) :=
  [str "intent", str "reasoning", str "initial_understanding"]

/-- Tag set `REFINEMENT_TAGS` from xml_utils.py. -/
def REFINEMENT_TAGS : List (List Char) :=
  [str "thinking", str "extracted_context", str "extracted_goal",
   str "extracted_format", str "ai_role", str "additional_insights",
   str "score", str "reasoning", str "ready_to_finalize", str "user_message"]

/-- Tag set `OPTIMIZATION_TAGS` from xml_utils.py. -/
def OPTIMIZATION_TAGS : List (List Char) :=
  [str "thinking", str "optimized_prompt", str "improvement_summary"]

/-! ## types.py -/

/-- Enum `UserIntent` from types.py. -/
inductive UserIntent
  | OPTIMIZE_EXISTING
  | CREATE_NEW
  | UNCLEAR
  deriving DecidableEq

/-- Record `ContextUnderstanding` from types.py. -/
structure ContextUnderstanding where
  context : List Char
  goal : List Char
  format : List Char
  ai_role : List Char
  additional_insights : List Char
  deriving DecidableEq

/-- Record `OptimizationResult` from types.py. -/
structure OptimizationResult where
  optimized_prompt : List Char
  improvements : List Char
  test_cases : Option (List Char)
  deriving DecidableEq

/-- One entry of the `messages` list: a `{"role": ..., "content": ...}` dict. -/
structure Message where
  role : List Char
  content : List Char
  deriving DecidableEq

/-! ## optimizer.py -/

/-- Lookup in an association list (Python `dict.get(key)`; the dicts built by
`parse_xml_response` have distinct keys, so first-match lookup coincides with
dict lookup). -/
def alist_get {β : Type} : List (List Char × β) → List Char → Option β
  | [], _ => none
  | (k, v) :: rest, key => if k = key then some v else alist_get rest key

/-- The sentinel default of `create_initial_state`. -/
def notYetClear : List Char := str "Not yet clear"

/-- The `context_understanding` record of `create_initial_state()`. -/
def initialContextUnderstanding : ContextUnderstanding :=
  { context := notYetClear, goal := notYetClear, format := notYetClear,
    ai_role := notYetClear, additional_insights := [] }

/-- One field step of `update_context_understanding`: the Python
`if value and value != "Not yet clear": state[...] = value` (where `value` is
`parsed.get(parsed_key)`, so `None` and `""` are both falsy). -/
def applyField (cur : List Char) (v : Option (List Char)) : List Char :=
  match v with
  | none => cur
  | some s => if s ≠ [] ∧ s ≠ notYetClear then s else cur

/-- Model of `update_context_understanding(state, parsed)` from optimizer.py, acting on
the `context_understanding` record (the five assignments of the
`field_map` loop). -/
def update_context_understanding (cu : ContextUnderstanding)
    (parsed : List (List Char × List Char)) : ContextUnderstanding :=
  { context := applyField cu.context (alist_get parsed (str "extracted_context")),
    goal := applyField cu.goal (alist_get parsed (str "extracted_goal")),
    format := applyField cu.format (alist_get parsed (str "extracted_format")),
    ai_role := applyField cu.ai_role (alist_get parsed (str "ai_role")),
    additional_insights :=
      applyField cu.additional_insights (alist_get parsed (str "additional_insights")) }

/-- The `intent_map` dict of `assess_user_intent`. -/
def intent_map : List (List Char × UserIntent) :=
  [(str "optimize_existing", UserIntent.OPTIMIZE_EXISTING),
   (str "create_new", UserIntent.CREATE_NEW),
   (str "unclear", UserIntent.UNCLEAR)]

/-- The pure tail of `assess_user_intent(model, user_input)` from optimizer.py:
given the model's response text, parse it and map the `intent` label through
`intent_map.get(intent_str, UserIntent.UNCLEAR)`. -/
def assess_user_intent (response : List Char) : UserIntent × List Char :=
  let parsed := parse_xml_response response ASSESSMENT_TAGS
  let intent_str := (alist_get parsed (str "intent")).getD (str "unclear")
  let initial_understanding := (alist_get parsed (str "initial_understanding")).getD []
  ((alist_get intent_map intent_str).getD UserIntent.UNCLEAR, initial_understanding)

/-- The pure tail of `generate_optimized_prompt(model, state)` from
optimizer.py: parse the model's response with `OPTIMIZATION_TAGS` and build
the result dict. -/
def generate_optimized_prompt (response : List Char) : OptimizationResult :=
  let parsed := parse_xml_response response OPTIMIZATION_TAGS
  { optimized_prompt := (alist_get parsed (str "optimized_prompt")).getD [],
    improvements := (alist_get parsed (str "improvement_summary")).getD [],
    test_cases := none }

/-! ### Python `float(...)` acceptance

`refinement_loop` wraps `float(parsed.get("score", "0.8"))` in
`try/except ValueError`.  We model which strings `float` accepts: optional
surrounding whitespace, optional sign, then either `inf`/`infinity`/`nan`
(case-insensitive) or a decimal literal with optional fractional part and
exponent, with PEP-515 underscores allowed between digits. -/

/-- ASCII decimal digit test (Python `\d` / float digits, ASCII fragment). -/
def isDigitCh (c : Char) : Bool := '0' ≤ c && c ≤ '9'

/-- Continue a digit run after its first digit: more digits, or a single
underscore followed by a digit; an underscore not followed by a digit makes
the whole literal invalid. -/
def eatMore : List Char → Option (List Char)
  | [] => some []
  | ['_'] => none
  | '_' :: c :: rest => if isDigitCh c then eatMore rest else none
  | c :: rest => if isDigitCh c then eatMore rest else some (c :: rest)

/-- Consume a digit run (at least one digit, underscores between digits). -/
def eatDigits : List Char → Option (List Char)
  | [] => none
  | c :: rest => if isDigitCh c then eatMore rest else none

/-- Consume an optional fractional part after an integer part. -/
def eatFrac : List Char → Option (List Char)
  | '.' :: rest =>
    match eatDigits rest with
    | some r => some r
    | none => some rest
  | s => some s

/-- Consume the mantissa: `D [. [D]]` or `. D`. -/
def eatMantissa (s : List Char) : Option (List Char) :=
  match eatDigits s with
  | some r => eatFrac r
  | none =>
    match s with
    | '.' :: rest => eatDigits rest
    | _ => none

/-- Consume an optional exponent `([eE] [+-]? D)`. -/
def eatExp : List Char → Option (List Char)
  | [] => some []
  | c :: rest =>
    if c = 'e' ∨ c = 'E' then
      match rest with
      | '+' :: r => eatDigits r
      | '-' :: r => eatDigits r
      | r => eatDigits r
    else some (c :: rest)

/-- Whether Python's `float(s)` succeeds (returns a value) rather than raising
`ValueError`. -/
def pyFloatOk (s : List Char) : Bool :=
  let t := pyStrip s
  let t2 := match t with
    | '+' :: r => r
    | '-' :: r => r
    | r => r
  let low := pyLower t2
  if low = str "inf" ∨ low = str "infinity" ∨ low = str "nan" then true
  else
    match eatMantissa t2 with
    | none => false
    | some r =>
      match eatExp r with
      | none => false
      | some r2 => r2.isEmpty

/-! ### The refinement loop -/

/-- The termination keyword list of `refinement_loop`
(`["finalize", "done", "finish", "end", "f"]`). -/
def TERMINATION_KEYWORDS : List (List Char) :=
  [str "finalize", str "done", str "finish", str "end", str "f"]

/-- The loop's break test: `user_input.lower() in [...]` (note: the code
lowercases but does not strip). -/
def isTerminationInput (user_input : List Char) : Bool :=
  decide (pyLower user_input ∈ TERMINATION_KEYWORDS)

/-- Observable side effects of one loop iteration. -/
inductive LoopEvent
  | assistantMessage (text : List Char)
  | readyBanner (score : List Char)
  deriving DecidableEq

/-- The part of `ConversationState` that `refinement_loop` touches. -/
structure LoopState where
  messages : List Message
  context_understanding : ContextUnderstanding
  deriving DecidableEq

/-- State effect of one iteration up to the input prompt: append the
assistant response to `messages`, then merge the parsed fields into
`context_understanding`. -/
def processResponse (st : LoopState) (response : List Char) : LoopState :=
  let parsed := parse_xml_response response REFINEMENT_TAGS
  { messages := st.messages ++ [⟨str "assistant", response⟩],
    context_understanding := update_context_understanding st.context_understanding parsed }

/-- Display events of one iteration: the assistant panel when `user_message`
is non-empty, then the readiness banner when `ready_to_finalize == "yes"` and
`float(score)` does not raise (the `try/except ValueError: pass`). -/
def responseEvents (response : List Char) : List LoopEvent :=
  let parsed := parse_xml_response response REFINEMENT_TAGS
  let user_message := (alist_get parsed (str "user_message")).getD []
  (if user_message ≠ [] then [LoopEvent.assistantMessage user_message] else []) ++
  (if alist_get parsed (str "ready_to_finalize") = some (str "yes")
      ∧ pyFloatOk ((alist_get parsed (str "score")).getD (str "0.8")) = true
   then [LoopEvent.readyBanner ((alist_get parsed (str "score")).getD (str "0.8"))]
   else [])

/-- Result of running `refinement_loop` against a finite interaction script. -/
structure LoopRun where
  final : LoopState
  events : List LoopEvent
  terminated : Bool
  deriving DecidableEq

/-- Model of `refinement_loop(model, state)` from optimizer.py, run against a script of
rounds `(model response, user input)`.  Each iteration appends the assistant
response, merges context, emits display events, then reads the user input:
a termination keyword breaks out of the loop (the input is not appended),
otherwise the input is appended as a user turn and the loop continues.
`terminated = false` means the script ran out while the loop was still
waiting for more rounds. -/
def refinement_loop (st : LoopState) : List (List Char × List Char) → LoopRun
  | [] => { final := st, events := [], terminated := false }
  | (response, user_input) :: rest =>
    let st1 := processResponse st response
    let evs := responseEvents response
    if isTerminationInput user_input then
      { final := st1, events := evs, terminated := true }
    else
      let r := refinement_loop
        { st1 with messages := st1.messages ++ [⟨str "user", user_input⟩] } rest
      { final := r.final, events := evs ++ r.events, terminated := r.terminated }

/-! ### Test-case extraction

`generate_test_cases` runs
`re.findall(r'<test number="(\d+)">(.*?)</test>', response, re.DOTALL)`:
non-overlapping leftmost matches, scanned left to right; the greedy `\d+`
takes the maximal digit run which must be followed by the literal `">`; the
non-greedy body ends at the first `</test>` after the opening. -/

/-- Literal head of the test envelope pattern. -/
def opnTestLit : List Char := str "<test number=\x22"

/-- Literal between the captured number and the body. -/
def midTestLit : List Char := str "\x22>"

/-- Literal closing tag of the test envelope. -/
def clsTestLit : List Char := str "</test>"

/-- Try to match the test-envelope regex anchored at the start of `s`;
on success return the captured number, the captured body and the rest of the
text after the match. -/
def tryMatchTest (s : List Char) : Option (List Char × List Char × List Char) :=
  if isPre opnTestLit s then
    let s1 := s.drop opnTestLit.length
    let num := s1.takeWhile isDigitCh
    if num.isEmpty then none
    else
      let s2 := s1.drop num.length
      if isPre midTestLit s2 then
        let s3 := s2.drop midTestLit.length
        match findSubAux clsTestLit s3 0 with
        | none => none
        | some k => some (num, s3.take k, s3.drop (k + clsTestLit.length))
      else none
  else none

/-- Fueled scan implementing `re.findall` for the test-envelope pattern:
at each position try to match; on a match emit the groups and continue after
the match, otherwise advance one character. -/
def scanTestsFuel : Nat → List Char → List (List Char × List Char)
  | 0, _ => []
  | fuel + 1, s =>
    match tryMatchTest s with
    | some (num, content, rest) => (num, content) :: scanTestsFuel fuel rest
    | none =>
      match s with
      | [] => []
      | _ :: t => scanTestsFuel fuel t

/-- Model of `re.findall(r'<test number="(\d+)">(.*?)</test>', s, re.DOTALL)`. -/
def findallTests (s : List Char) : List (List Char × List Char) :=
  scanTestsFuel s.length s

/-- The pure tail of `generate_test_cases(model, ...)` from optimizer.py:
find all test envelopes in the response, then for each body extract the
`scenario`, `input` and `expected_behavior` fields, ignoring the captured
number. -/
def generate_test_cases (response : List Char) :
    List (List Char × List Char × List Char) :=
  (findallTests response).map fun p =>
    (extract_xml_content p.2 (str "scenario"),
     extract_xml_content p.2 (str "input"),
     extract_xml_content p.2 (str "expected_behavior"))

/-- The state passed to the next iteration when the input does not terminate
the loop: the assistant response and then the user input are appended. -/
def nextState (st : LoopState) (response user_input : List Char) : LoopState :=
  { messages := (processResponse st response).messages ++ [⟨str "user", user_input⟩],
    context_understanding := (processResponse st response).context_understanding }

/-- A well-formed numbered test envelope: captured number and body. -/
structure TestEnv where
  num : List Char
  body : List Char
  deriving DecidableEq

/-- The literal text of an envelope: `<test number="N">body</test>`. -/
def envText (e : TestEnv) : List Char :=
  opnTestLit ++ e.num ++ midTestLit ++ e.body ++ clsTestLit

/-- Well-formedness of an envelope: at least one digit in the number, digits
only, and the body does not contain the closing tag (so the envelope's own
closing tag is the first one the non-greedy group can stop at). -/
def wfEnv (e : TestEnv) : Prop :=
  e.num ≠ [] ∧ (∀ c ∈ e.num, isDigitCh c = true) ∧ occursIn clsTestLit e.body = false

/-- Interleave envelopes with separator text:
`sep0 env₁ sep₁ env₂ sep₂ …`. -/
def assembleTests (sep0 : List Char) : List (TestEnv × List Char) → List Char
  | [] => sep0
  | (e, sep) :: ps => sep0 ++ envText e ++ assembleTests sep ps

instance (e : TestEnv) : Decidable (wfEnv e) := by
  unfold wfEnv
  infer_instance

/-- Sample envelope body used in the C4 witness. -/
def sampleBody1 : List Char :=
  str "<scenario>s1</scenario><input>i1</input><expected_behavior>e1</expected_behavior>"

/-- Sample envelope list used in the C4 witness. -/
def sampleEnvs : List (TestEnv × List Char) :=
  [({ num := str "1", body := sampleBody1 }, str " mid "),
   ({ num := str "27", body := str "<scenario>s2</scenario>" }, str " tail")]

/-! ## Basic lemmas about the string scanning primitives -/

@[simp] lemma isPre_nil (s : List Char) : isPre [] s = true := rfl

@[simp] lemma isPre_cons_nil (a : Char) (as : List Char) : isPre (a :: as) [] = false := rfl

lemma isPre_cons_cons (a : Char) (as : List Char) (b : Char) (bs : List Char) :
    isPre (a :: as) (b :: bs) = (decide (a = b) && isPre as bs) := rfl

lemma isPre_iff_take (p s : List Char) : isPre p s = true ↔ s.take p.length = p := by
  induction p generalizing s with
  | nil => simp
  | cons a as ih =>
    cases s with
    | nil => simp
    | cons b bs =>
      rw [isPre_cons_cons, Bool.and_eq_true, decide_eq_true_eq]
      simp only [List.length_cons, List.take_succ_cons, List.cons.injEq]
      rw [ih]
      constructor
      · rintro ⟨h1, h2⟩; exact ⟨h1.symm, h2⟩
      · rintro ⟨h1, h2⟩; exact ⟨h1.symm, h2⟩

lemma isPre_length {p s : List Char} (h : isPre p s = true) : p.length ≤ s.length := by
  rw [isPre_iff_take] at h
  have := congrArg List.length h
  simp [List.length_take] at this
  omega

lemma isPre_self_append (p t : List Char) : isPre p (p ++ t) = true := by
  rw [isPre_iff_take]
  exact List.take_left p t

lemma isPre_append_of_le {p a : List Char} (b : List Char) (hlen : p.length ≤ a.length)
    (h : isPre p (a ++ b) = true) : isPre p a = true := by
  rw [isPre_iff_take] at h ⊢
  rw [List.take_append_eq_append_take, Nat.sub_eq_zero_of_le hlen] at h
  simpa using h

lemma isPre_append_span {p a b : List Char} (hlen : a.length < p.length)
    (h : isPre p (a ++ b) = true) : p = a ++ b.take (p.length - a.length) := by
  rw [isPre_iff_take] at h
  rw [List.take_append_eq_append_take, List.take_of_length_le (Nat.le_of_lt hlen)] at h
  exact h.symm

/-- A literal whose characters after position 0 are never `'<'` cannot start
strictly inside a block `a` when what follows `a` is empty or starts with
`'<'`. -/
lemma isPre_not_span (p a rest : List Char)
    (hp : ∀ i, i < p.length → 0 < i → p[i]? ≠ some '<')
    (ha : a ≠ []) (hlen : a.length < p.length)
    (hrest : rest = [] ∨ ∃ r, rest = '<' :: r) :
    isPre p (a ++ rest) = false := by
  rw [Bool.eq_false_iff]
  intro h
  rcases hrest with h0 | ⟨r, h0⟩ <;> subst h0
  · have := isPre_length h
    simp at this
    omega
  · have hspan := isPre_append_span hlen h
    have hm : 0 < p.length - a.length := by omega
    have htake : (('<' :: r).take (p.length - a.length)) =
        '<' :: r.take (p.length - a.length - 1) := by
      cases hq : p.length - a.length with
      | zero => omega
      | succ m => simp [List.take_succ_cons]
    rw [htake] at hspan
    have hget : p[a.length]? = some '<' := by
      rw [hspan, List.getElem?_append_right (Nat.le_refl a.length)]
      simp
    exact hp a.length (by omega) (List.length_pos.mpr ha) hget

lemma occursIn_false_iff (pat s : List Char) :
    occursIn pat s = false ↔ ∀ i, isPre pat (s.drop i) = false := by
  induction s with
  | nil =>
    simp only [occursIn, List.drop_nil]
    exact ⟨fun h _ => h, fun h => h 0⟩
  | cons c t ih =>
    simp only [occursIn, Bool.or_eq_false_iff, ih]
    constructor
    · rintro ⟨h0, h1⟩ i
      cases i with
      | zero => exact h0
      | succ n => rw [List.drop_succ_cons]; exact h1 n
    · intro h
      refine ⟨h 0, fun i => ?_⟩
      have := h (i + 1)
      rwa [List.drop_succ_cons] at this

lemma findSubAux_none_of (pat s : List Char)
    (h : ∀ i, isPre pat (s.drop i) = false) : ∀ n, findSubAux pat s n = none := by
  induction s with
  | nil =>
    intro n
    have h0 : isPre pat [] = false := by simpa using h 0
    simp [findSubAux, h0]
  | cons c t ih =>
    intro n
    have h0 := h 0
    rw [List.drop_zero] at h0
    simp only [findSubAux, h0, if_false]
    exact ih (fun i => by have := h (i + 1); rwa [List.drop_succ_cons] at this) (n + 1)

lemma occursIn_false_findSubAux {pat s : List Char} (n : Nat)
    (h : occursIn pat s = false) : findSubAux pat s n = none :=
  findSubAux_none_of pat s ((occursIn_false_iff pat s).mp h) n

lemma findSubAux_eq_some_of (pat : List Char) :
    ∀ (s : List Char) (n k : Nat), isPre pat (s.drop k) = true →
      (∀ j, j < k → isPre pat (s.drop j) = false) →
      findSubAux pat s n = some (n + k) := by
  intro s
  induction s with
  | nil =>
    intro n k hk hmin
    cases k with
    | zero => simp_all [findSubAux]
    | succ m =>
      have := hmin 0 (Nat.succ_pos m)
      rw [List.drop_nil] at hk
      rw [List.drop_nil] at this
      rw [this] at hk
      cases hk
  | cons c t ih =>
    intro n k hk hmin
    cases k with
    | zero =>
      rw [List.drop_zero] at hk
      simp [findSubAux, hk]
    | succ m =>
      have h0 := hmin 0 (Nat.succ_pos m)
      rw [List.drop_zero] at h0
      simp only [findSubAux, h0, if_false]
      rw [List.drop_succ_cons] at hk
      have := ih (n + 1) m hk (fun j hj => by
        have := hmin (j + 1) (Nat.succ_lt_succ hj)
        rwa [List.drop_succ_cons] at this)
      have heq : n + (m + 1) = n + 1 + m := by omega
      rw [heq]
      exact this

lemma findSubAux_some_le_isPre (pat : List Char) :
    ∀ (s : List Char) (n m : Nat), findSubAux pat s n = some m →
      n ≤ m ∧ isPre pat (s.drop (m - n)) = true := by
  intro s
  induction s with
  | nil =>
    intro n m h
    simp only [findSubAux] at h
    by_cases h0 : isPre pat [] = true
    · rw [if_pos h0] at h
      cases h
      simpa using h0
    · rw [if_neg h0] at h
      cases h
  | cons c t ih =>
    intro n m h
    simp only [findSubAux] at h
    by_cases h0 : isPre pat (c :: t) = true
    · rw [if_pos h0] at h
      cases h
      simpa using h0
    · rw [if_neg h0] at h
      obtain ⟨h1, h2⟩ := ih (n + 1) m h
      refine ⟨by omega, ?_⟩
      have hmn : m - n = (m - (n + 1)) + 1 := by omega
      rwa [hmn, List.drop_succ_cons]

/-! ## Lemmas about `extract_xml_content` and `parse_xml_response` -/

lemma extract_eq_empty_of_no_open (text tag : List Char)
    (h : occursIn (openTag tag) text = false) : extract_xml_content text tag = [] := by
  have h1 : findSubAux (openTag tag) text 0 = none := occursIn_false_findSubAux 0 h
  simp [extract_xml_content, h1]

lemma extract_spec_first (text tag : List Char) (i j : Nat)
    (hi : isPre (openTag tag) (text.drop i) = true)
    (hmini : ∀ r, r < i → isPre (openTag tag) (text.drop r) = false)
    (hij : i + (openTag tag).length ≤ j)
    (hj : isPre (closeTag tag) (text.drop j) = true)
    (hminj : ∀ r, i + (openTag tag).length ≤ r → r < j →
      isPre (closeTag tag) (text.drop r) = false) :
    extract_xml_content text tag =
      pyStrip ((text.drop (i + (openTag tag).length)).take
        (j - (i + (openTag tag).length))) := by
  have h1 : findSubAux (openTag tag) text 0 = some i := by
    have := findSubAux_eq_some_of (openTag tag) text 0 i hi hmini
    simpa using this
  have h2 : findSubAux (closeTag tag) (text.drop (i + (openTag tag).length)) 0 =
      some (j - (i + (openTag tag).length)) := by
    have := findSubAux_eq_some_of (closeTag tag)
      (text.drop (i + (openTag tag).length)) 0 (j - (i + (openTag tag).length))
      (by
        rw [List.drop_drop]
        have heq : i + (openTag tag).length + (j - (i + (openTag tag).length)) = j := by
          omega
        rw [heq]
        exact hj)
      (by
        intro r hr
        rw [List.drop_drop]
        exact hminj (i + (openTag tag).length + r) (by omega) (by omega))
    simpa using this
  simp [extract_xml_content, h1, h2]

lemma alist_get_parse (response : List Char) (tags : List (List Char)) (t : List Char)
    (ht : t ∈ tags) :
    alist_get (parse_xml_response response tags) t =
      some (extract_xml_content response t) := by
  induction tags with
  | nil => cases ht
  | cons k ks ih =>
    simp only [parse_xml_response, List.map_cons, alist_get]
    by_cases hk : k = t
    · subst hk
      simp
    · rw [if_neg hk]
      rcases List.mem_cons.mp ht with h | h
      · exact absurd h.symm hk
      · exact ih h

/-! ## Lemmas about `pyStrip` -/

lemma dropWhile_self_idem (p : Char → Bool) (s : List Char) :
    (s.dropWhile p).dropWhile p = s.dropWhile p := by
  induction s with
  | nil => rfl
  | cons c t ih =>
    cases h : p c with
    | true => rw [List.dropWhile_cons_of_pos h]; exact ih
    | false =>
      rw [List.dropWhile_cons_of_neg (by simp [h]), List.dropWhile_cons_of_neg (by simp [h])]

lemma head?_dropWhile_false (p : Char → Bool) (s : List Char) (h : Char)
    (hh : (s.dropWhile p).head? = some h) : p h = false := by
  induction s with
  | nil => cases hh
  | cons c t ih =>
    cases hc : p c with
    | true => rw [List.dropWhile_cons_of_pos hc] at hh; exact ih hh
    | false =>
      rw [List.dropWhile_cons_of_neg (by simp [hc])] at hh
      cases hh
      exact hc

lemma dropWhile_eq_self_of_head (p : Char → Bool) (s : List Char)
    (h : ∀ c, s.head? = some c → p c = false) : s.dropWhile p = s := by
  cases s with
  | nil => rfl
  | cons c t => exact List.dropWhile_cons_of_neg (by simp [h c rfl])

/-- The back-stripped list is an initial segment of the original. -/
lemma backStrip_decomp (p : Char → Bool) (s : List Char) :
    ∃ t, s = (s.reverse.dropWhile p).reverse ++ t := by
  refine ⟨(s.reverse.takeWhile p).reverse, ?_⟩
  calc s = s.reverse.reverse := (List.reverse_reverse s).symm
    _ = (s.reverse.takeWhile p ++ s.reverse.dropWhile p).reverse := by
        rw [List.takeWhile_append_dropWhile]
    _ = (s.reverse.dropWhile p).reverse ++ (s.reverse.takeWhile p).reverse :=
        List.reverse_append _ _

@[simp] lemma pyStrip_nil : pyStrip [] = [] := rfl

lemma pyStrip_idem (s : List Char) : pyStrip (pyStrip s) = pyStrip s := by
  unfold pyStrip
  have hself :
      (((s.dropWhile pyIsSpace).reverse.dropWhile pyIsSpace).reverse).dropWhile pyIsSpace =
        ((s.dropWhile pyIsSpace).reverse.dropWhile pyIsSpace).reverse := by
    apply dropWhile_eq_self_of_head
    intro c hc
    obtain ⟨t, ht⟩ := backStrip_decomp pyIsSpace (s.dropWhile pyIsSpace)
    apply head?_dropWhile_false pyIsSpace s
    cases hbs : ((s.dropWhile pyIsSpace).reverse.dropWhile pyIsSpace).reverse with
    | nil => rw [hbs] at hc; cases hc
    | cons h z =>
      rw [hbs] at hc ht
      rw [ht]
      simpa using hc
  rw [hself, List.reverse_reverse, dropWhile_self_idem]

lemma pyStrip_all_space (s : List Char) (h : ∀ c ∈ s, pyIsSpace c = true) :
    pyStrip s = [] := by
  unfold pyStrip
  rw [List.dropWhile_eq_nil_iff.mpr h]
  rfl

/-! ## Claim theorems: parser (C5, C6, C9) -/

/-- C5: for every response text and requested field-name list, the parser
returns a mapping whose keys are exactly the requested field names; each
requested field maps to the extracted content, which is the empty string when
the field's opening delimiter is absent from the text; parsing is
deterministic, and tags not in the requested set do not produce entries. -/
theorem parse_response_mapping (response : List Char) (tags : List (List Char)) :
    ((parse_xml_response response tags).map Prod.fst = tags) ∧
    (∀ t ∈ tags, alist_get (parse_xml_response response tags) t =
        some (extract_xml_content response t)) ∧
    (∀ t ∈ tags, occursIn (openTag t) response = false →
        alist_get (parse_xml_response response tags) t = some []) ∧
    parse_xml_response response tags = parse_xml_response response tags := by
  refine ⟨?_, ?_, ?_, rfl⟩
  · simp only [parse_xml_response, List.map_map]
    have hid : (Prod.fst ∘ fun tag : List Char =>
        (tag, extract_xml_content response tag)) = id := rfl
    rw [hid, List.map_id]
  · intro t ht
    exact alist_get_parse response tags t ht
  · intro t ht h
    rw [alist_get_parse response tags t ht, extract_eq_empty_of_no_open response t h]

/-- Witness for C5 at a concrete response and tag set: the key list is as
requested and the absent field `a` yields the empty string. -/
theorem parse_response_mapping_witness :
    alist_get (parse_xml_response (str "<b>v</b>") [str "a", str "b"]) (str "a") =
        some [] ∧
    (parse_xml_response (str "<b>v</b>") [str "a", str "b"]).map Prod.fst =
        [str "a", str "b"] :=
  ⟨(parse_response_mapping (str "<b>v</b>") [str "a", str "b"]).2.2.1 (str "a")
      (by simp) (by decide),
   (parse_response_mapping (str "<b>v</b>") [str "a", str "b"]).1⟩

/-- C6: field extraction uses only the first match: when the opening marker
first occurs at `i` and the closing marker first occurs (at or after the end
of that opening marker) at `j`, the result is exactly the stripped text
between them — later occurrences are ignored and the match is non-greedy.
And when no closing marker follows any opening marker (in particular when a
closing marker appears only before the openings), the result is the empty
string rather than an error. -/
theorem extract_first_match_policy :
    (∀ text tag i j,
      isPre (openTag tag) (text.drop i) = true →
      (∀ r, r < i → isPre (openTag tag) (text.drop r) = false) →
      i + (openTag tag).length ≤ j →
      isPre (closeTag tag) (text.drop j) = true →
      (∀ r, i + (openTag tag).length ≤ r → r < j →
        isPre (closeTag tag) (text.drop r) = false) →
      extract_xml_content text tag =
        pyStrip ((text.drop (i + (openTag tag).length)).take
          (j - (i + (openTag tag).length)))) ∧
    (∀ text tag,
      (∀ i, i < text.length → isPre (openTag tag) (text.drop i) = true →
        ∀ j, j < text.length → i + (openTag tag).length ≤ j →
          isPre (closeTag tag) (text.drop j) = false) →
      extract_xml_content text tag = []) := by
  constructor
  · exact extract_spec_first
  · intro text tag h
    cases h1 : findSubAux (openTag tag) text 0 with
    | none => simp [extract_xml_content, h1]
    | some i =>
      obtain ⟨-, hle⟩ := findSubAux_some_le_isPre (openTag tag) text 0 i h1
      have hi : isPre (openTag tag) (text.drop i) = true := by simpa using hle
      have hlen : i < text.length := by
        by_contra hc
        push_neg at hc
        rw [List.drop_eq_nil_of_le hc] at hi
        simp [openTag] at hi
      cases h2 : findSubAux (closeTag tag) (text.drop (i + (openTag tag).length)) 0 with
      | none => simp [extract_xml_content, h1, h2]
      | some k =>
        exfalso
        obtain ⟨-, hcls⟩ := findSubAux_some_le_isPre (closeTag tag)
          (text.drop (i + (openTag tag).length)) 0 k h2
        simp only [Nat.sub_zero] at hcls
        rw [List.drop_drop] at hcls
        have hjlen : i + (openTag tag).length + k < text.length := by
          by_contra hc
          push_neg at hc
          rw [List.drop_eq_nil_of_le hc] at hcls
          simp [closeTag] at hcls
        have := h i hlen hi (i + (openTag tag).length + k) hjlen (by omega)
        simp [this] at hcls

/-- Witness for C6: with two `<a>…</a>` blocks only the first is used, and a
text whose closing marker precedes the only opening (with no later pair)
yields the empty string. -/
theorem extract_first_match_policy_witness :
    extract_xml_content (str "<a>x</a>y<a>z</a>") (str "a") = str "x" ∧
    extract_xml_content (str "</a>q<a>r") (str "a") = [] := by
  constructor
  · have h := extract_first_match_policy.1 (str "<a>x</a>y<a>z</a>") (str "a") 0 4
      (by decide) (by decide) (by decide) (by decide) (by decide)
    exact h.trans (by decide)
  · exact extract_first_match_policy.2 (str "</a>q<a>r") (str "a") (by decide)

/-- C9: extracted field content carries no leading or trailing whitespace
(the result is a fixed point of stripping), and a matched field whose content
is entirely whitespace yields the empty string — indistinguishable from an
absent field. -/
theorem extract_whitespace_normalized :
    (∀ text tag, pyStrip (extract_xml_content text tag) = extract_xml_content text tag) ∧
    (∀ text tag i j,
      isPre (openTag tag) (text.drop i) = true →
      (∀ r, r < i → isPre (openTag tag) (text.drop r) = false) →
      i + (openTag tag).length ≤ j →
      isPre (closeTag tag) (text.drop j) = true →
      (∀ r, i + (openTag tag).length ≤ r → r < j →
        isPre (closeTag tag) (text.drop r) = false) →
      (∀ c ∈ (text.drop (i + (openTag tag).length)).take
          (j - (i + (openTag tag).length)), pyIsSpace c = true) →
      extract_xml_content text tag = []) := by
  constructor
  · intro text tag
    cases h1 : findSubAux (openTag tag) text 0 with
    | none => simp [extract_xml_content, h1]
    | some i =>
      cases h2 : findSubAux (closeTag tag) (text.drop (i + (openTag tag).length)) 0 with
      | none => simp [extract_xml_content, h1, h2]
      | some k => simp [extract_xml_content, h1, h2, pyStrip_idem]
  · intro text tag i j hi hmini hij hj hminj hws
    rw [extract_spec_first text tag i j hi hmini hij hj hminj]
    exact pyStrip_all_space _ hws

/-- Witness for C9: a field whose matched content is all whitespace extracts
to the empty string, and a concrete extraction is strip-fixed. -/
theorem extract_whitespace_normalized_witness :
    extract_xml_content (str "<a> \n\t </a>x") (str "a") = [] ∧
    pyStrip (extract_xml_content (str "<b> hi </b>") (str "b")) =
      extract_xml_content (str "<b> hi </b>") (str "b") :=
  ⟨extract_whitespace_normalized.2 (str "<a> \n\t </a>x") (str "a") 0 7
      (by decide) (by decide) (by decide) (by decide) (by decide) (by decide),
   extract_whitespace_normalized.1 (str "<b> hi </b>") (str "b")⟩

/-! ## Claim theorems: finalization (C3) and intent (C7) -/

lemma generate_optimized_prompt_eq (response : List Char) :
    generate_optimized_prompt response =
      { optimized_prompt := extract_xml_content response (str "optimized_prompt"),
        improvements := extract_xml_content response (str "improvement_summary"),
        test_cases := none } := by
  simp [generate_optimized_prompt,
    alist_get_parse response OPTIMIZATION_TAGS (str "optimized_prompt") (by decide),
    alist_get_parse response OPTIMIZATION_TAGS (str "improvement_summary") (by decide)]

/-- C3: finalization is total: for every model response text it returns an
OptimizationResult whose `test_cases` field is `None`; when the
`optimized_prompt` (resp. `improvement_summary`) delimiters are absent the
corresponding field is the empty string. -/
theorem finalize_total_result (response : List Char) :
    (generate_optimized_prompt response).test_cases = none ∧
    (occursIn (openTag (str "optimized_prompt")) response = false →
      (generate_optimized_prompt response).optimized_prompt = []) ∧
    (occursIn (openTag (str "improvement_summary")) response = false →
      (generate_optimized_prompt response).improvements = []) := by
  rw [generate_optimized_prompt_eq]
  refine ⟨rfl, fun h => ?_, fun h => ?_⟩
  · exact extract_eq_empty_of_no_open response (str "optimized_prompt") h
  · exact extract_eq_empty_of_no_open response (str "improvement_summary") h

/-- Witness for C3 at a response with no tags at all. -/
theorem finalize_total_result_witness :
    (generate_optimized_prompt (str "no tags here")).optimized_prompt = [] ∧
    (generate_optimized_prompt (str "no tags here")).improvements = [] ∧
    (generate_optimized_prompt (str "no tags here")).test_cases = none :=
  ⟨(finalize_total_result (str "no tags here")).2.1 (by decide),
   (finalize_total_result (str "no tags here")).2.2 (by decide),
   (finalize_total_result (str "no tags here")).1⟩

/-- C7: intent classification is fail-safe and total: the classified intent is
exactly the `intent_map` image of the extracted label with default `UNCLEAR`;
any label other than the two recognized non-unclear labels maps to `UNCLEAR`;
and the result is always one of the three enum values. -/
theorem intent_fail_safe (response label : List Char) :
    ((assess_user_intent response).1 =
      (alist_get intent_map (extract_xml_content response (str "intent"))).getD
        UserIntent.UNCLEAR) ∧
    (label ≠ str "optimize_existing" → label ≠ str "create_new" →
      (alist_get intent_map label).getD UserIntent.UNCLEAR = UserIntent.UNCLEAR) ∧
    ((assess_user_intent response).1 = UserIntent.OPTIMIZE_EXISTING ∨
     (assess_user_intent response).1 = UserIntent.CREATE_NEW ∨
     (assess_user_intent response).1 = UserIntent.UNCLEAR) := by
  refine ⟨?_, ?_, ?_⟩
  · simp [assess_user_intent,
      alist_get_parse response ASSESSMENT_TAGS (str "intent") (by decide)]
  · intro h1 h2
    simp only [intent_map, alist_get]
    rw [if_neg (fun h => h1 h.symm), if_neg (fun h => h2 h.symm)]
    by_cases h3 : str "unclear" = label
    · rw [if_pos h3]; rfl
    · rw [if_neg h3]; rfl
  · cases h : (assess_user_intent response).1 <;> simp

/-- Witness for C7: an unrecognized label classifies as UNCLEAR. -/
theorem intent_fail_safe_witness :
    (assess_user_intent (str "<intent>banana</intent>")).1 = UserIntent.UNCLEAR := by
  have h := intent_fail_safe (str "<intent>banana</intent>") (str "banana")
  have h1 := h.1
  rw [show extract_xml_content (str "<intent>banana</intent>") (str "intent") =
      str "banana" from by decide] at h1
  rw [h1]
  exact h.2.1 (by decide) (by decide)

/-! ## Shape lemmas for the refinement loop -/

lemma refinement_loop_nil (st : LoopState) :
    refinement_loop st [] = { final := st, events := [], terminated := false } := rfl

lemma refinement_loop_cons_term (st : LoopState) (response user_input : List Char)
    (rest : List (List Char × List Char)) (h : isTerminationInput user_input = true) :
    refinement_loop st ((response, user_input) :: rest) =
      { final := processResponse st response, events := responseEvents response,
        terminated := true } := by
  simp [refinement_loop, h]

lemma refinement_loop_cons_cont (st : LoopState) (response user_input : List Char)
    (rest : List (List Char × List Char)) (h : isTerminationInput user_input = false) :
    refinement_loop st ((response, user_input) :: rest) =
      { final := (refinement_loop (nextState st response user_input) rest).final,
        events := responseEvents response ++
          (refinement_loop (nextState st response user_input) rest).events,
        terminated := (refinement_loop (nextState st response user_input) rest).terminated } := by
  simp [refinement_loop, h, nextState, processResponse]

/-! ## Claim C1: the termination check -/

/-- Counterexample to C1 as stated: the input `"end "` (trailing space) is,
after trimming and lowercasing, in the termination keyword set, yet the loop
does not terminate on it — the code lowercases but never trims. -/
theorem termination_trim_cex :
    (refinement_loop { messages := [], context_understanding := initialContextUnderstanding }
        [(str "resp", str "end ")]).terminated = false ∧
    pyLower (pyStrip (str "end ")) ∈ TERMINATION_KEYWORDS := by
  constructor
  · decide
  · decide

/-- C1 (amended): the refinement loop transitions to TERMINATED exactly when
the user input, after lowercasing only (no trimming), is one of
{"finalize","done","finish","end","f"}; when it is, the loop breaks at that
round whatever follows, and when it is not, termination is decided by the
remaining rounds alone. -/
theorem termination_keyword_check (st : LoopState) (response user_input : List Char)
    (rest : List (List Char × List Char)) :
    ((refinement_loop st [(response, user_input)]).terminated = true ↔
      pyLower user_input ∈ TERMINATION_KEYWORDS) ∧
    (pyLower user_input ∈ TERMINATION_KEYWORDS →
      refinement_loop st ((response, user_input) :: rest) =
        { final := processResponse st response, events := responseEvents response,
          terminated := true }) ∧
    (pyLower user_input ∉ TERMINATION_KEYWORDS →
      (refinement_loop st ((response, user_input) :: rest)).terminated =
        (refinement_loop (nextState st response user_input) rest).terminated) := by
  refine ⟨?_, ?_, ?_⟩
  · by_cases h : pyLower user_input ∈ TERMINATION_KEYWORDS
    · rw [refinement_loop_cons_term st response user_input []
        (by simp [isTerminationInput, h])]
      simp [h]
    · rw [refinement_loop_cons_cont st response user_input []
        (by simp [isTerminationInput, h])]
      simp [refinement_loop_nil, h]
  · intro h
    exact refinement_loop_cons_term st response user_input rest
      (by simp [isTerminationInput, h])
  · intro h
    rw [refinement_loop_cons_cont st response user_input rest
      (by simp [isTerminationInput, h])]

/-- Witness for C1 (amended): concrete terminating and non-terminating
inputs, and the exact shape of a terminating round. -/
theorem termination_keyword_check_witness :
    (refinement_loop { messages := [], context_understanding := initialContextUnderstanding }
        [(str "r", str "FINALIZE")]).terminated = true ∧
    (refinement_loop { messages := [], context_understanding := initialContextUnderstanding }
        [(str "r", str "Finish")]).terminated = true ∧
    (refinement_loop { messages := [], context_understanding := initialContextUnderstanding }
        [(str "r", str "f")]).terminated = true ∧
    (refinement_loop { messages := [], context_understanding := initialContextUnderstanding }
        [(str "r", str "hello")]).terminated = false ∧
    refinement_loop { messages := [], context_understanding := initialContextUnderstanding }
        [(str "r", str "done"), (str "x", str "y")] =
      { final := processResponse
          { messages := [], context_understanding := initialContextUnderstanding } (str "r"),
        events := responseEvents (str "r"), terminated := true } := by
  refine ⟨?_, ?_, ?_, ?_, ?_⟩
  · exact (termination_keyword_check
      { messages := [], context_understanding := initialContextUnderstanding }
      (str "r") (str "FINALIZE") []).1.mpr (by decide)
  · exact (termination_keyword_check
      { messages := [], context_understanding := initialContextUnderstanding }
      (str "r") (str "Finish") []).1.mpr (by decide)
  · exact (termination_keyword_check
      { messages := [], context_understanding := initialContextUnderstanding }
      (str "r") (str "f") []).1.mpr (by decide)
  · have h := (termination_keyword_check
      { messages := [], context_understanding := initialContextUnderstanding }
      (str "r") (str "hello") []).1
    rw [Bool.eq_false_iff]
    intro ht
    exact absurd (h.mp ht) (by decide)
  · exact (termination_keyword_check
      { messages := [], context_understanding := initialContextUnderstanding }
      (str "r") (str "done") [(str "x", str "y")]).2.1 (by decide)

/-! ## Claim C2: merge monotonicity -/

lemma applyField_cases (cur : List Char) (v : Option (List Char)) :
    applyField cur v = cur ∨
      ∃ s, v = some s ∧ s ≠ [] ∧ s ≠ notYetClear ∧ applyField cur v = s := by
  cases v with
  | none => exact Or.inl rfl
  | some s =>
    by_cases h : s ≠ [] ∧ s ≠ notYetClear
    · exact Or.inr ⟨s, rfl, h.1, h.2, by simp only [applyField]; rw [if_pos h]⟩
    · exact Or.inl (by simp only [applyField]; rw [if_neg h])

lemma applyField_ne (cur : List Char) (v : Option (List Char))
    (h : cur ≠ notYetClear) : applyField cur v ≠ notYetClear := by
  rcases applyField_cases cur v with h1 | ⟨s, _, _, hs, h1⟩ <;> rw [h1]
  · exact h
  · exact hs

lemma foldl_update_preserve (f : ContextUnderstanding → List Char)
    (hf : ∀ cu parsed, f cu ≠ notYetClear →
      f (update_context_understanding cu parsed) ≠ notYetClear) :
    ∀ (ps : List (List (List Char × List Char))) (cu : ContextUnderstanding),
      f cu ≠ notYetClear → f (ps.foldl update_context_understanding cu) ≠ notYetClear := by
  intro ps
  induction ps with
  | nil => intro cu h; exact h
  | cons p ps ih => intro cu h; exact ih _ (hf cu p h)

/-- C2: the context merge is monotone: each of the five tracked fields is
overwritten only when the parsed value is non-empty and not the sentinel
"Not yet clear" (otherwise it is left unchanged); consequently, over any
sequence of merge calls, a field that holds a non-sentinel value never
reverts to the sentinel. -/
theorem context_merge_monotone :
    (∀ (cu : ContextUnderstanding) (parsed : List (List Char × List Char)),
      ((update_context_understanding cu parsed).context = cu.context ∨
        ∃ v, alist_get parsed (str "extracted_context") = some v ∧ v ≠ [] ∧
          v ≠ notYetClear ∧ (update_context_understanding cu parsed).context = v) ∧
      ((update_context_understanding cu parsed).goal = cu.goal ∨
        ∃ v, alist_get parsed (str "extracted_goal") = some v ∧ v ≠ [] ∧
          v ≠ notYetClear ∧ (update_context_understanding cu parsed).goal = v) ∧
      ((update_context_understanding cu parsed).format = cu.format ∨
        ∃ v, alist_get parsed (str "extracted_format") = some v ∧ v ≠ [] ∧
          v ≠ notYetClear ∧ (update_context_understanding cu parsed).format = v) ∧
      ((update_context_understanding cu parsed).ai_role = cu.ai_role ∨
        ∃ v, alist_get parsed (str "ai_role") = some v ∧ v ≠ [] ∧
          v ≠ notYetClear ∧ (update_context_understanding cu parsed).ai_role = v) ∧
      ((update_context_understanding cu parsed).additional_insights =
          cu.additional_insights ∨
        ∃ v, alist_get parsed (str "additional_insights") = some v ∧ v ≠ [] ∧
          v ≠ notYetClear ∧
          (update_context_understanding cu parsed).additional_insights = v)) ∧
    (∀ (cu : ContextUnderstanding) (ps : List (List (List Char × List Char))),
      (cu.context ≠ notYetClear →
        (ps.foldl update_context_understanding cu).context ≠ notYetClear) ∧
      (cu.goal ≠ notYetClear →
        (ps.foldl update_context_understanding cu).goal ≠ notYetClear) ∧
      (cu.format ≠ notYetClear →
        (ps.foldl update_context_understanding cu).format ≠ notYetClear) ∧
      (cu.ai_role ≠ notYetClear →
        (ps.foldl update_context_understanding cu).ai_role ≠ notYetClear) ∧
      (cu.additional_insights ≠ notYetClear →
        (ps.foldl update_context_understanding cu).additional_insights ≠ notYetClear)) := by
  constructor
  · intro cu parsed
    exact ⟨applyField_cases cu.context _, applyField_cases cu.goal _,
      applyField_cases cu.format _, applyField_cases cu.ai_role _,
      applyField_cases cu.additional_insights _⟩
  · intro cu ps
    refine ⟨fun h => ?_, fun h => ?_, fun h => ?_, fun h => ?_, fun h => ?_⟩
    · exact foldl_update_preserve (fun c => c.context)
        (fun c p hc => applyField_ne c.context _ hc) ps cu h
    · exact foldl_update_preserve (fun c => c.goal)
        (fun c p hc => applyField_ne c.goal _ hc) ps cu h
    · exact foldl_update_preserve (fun c => c.format)
        (fun c p hc => applyField_ne c.format _ hc) ps cu h
    · exact foldl_update_preserve (fun c => c.ai_role)
        (fun c p hc => applyField_ne c.ai_role _ hc) ps cu h
    · exact foldl_update_preserve (fun c => c.additional_insights)
        (fun c p hc => applyField_ne c.additional_insights _ hc) ps cu h

/-- Witness for C2: a known value survives merges carrying the sentinel and
the empty string. -/
theorem context_merge_monotone_witness :
    (List.foldl update_context_understanding
      { context := str "known", goal := notYetClear, format := notYetClear,
        ai_role := notYetClear, additional_insights := [] }
      [[(str "extracted_context", notYetClear)],
       [(str "extracted_context", [])]]).context ≠ notYetClear :=
  (context_merge_monotone.2
    { context := str "known", goal := notYetClear, format := notYetClear,
      ai_role := notYetClear, additional_insights := [] }
    [[(str "extracted_context", notYetClear)],
     [(str "extracted_context", [])]]).1 (by decide)

/-! ## Claim C8: the readiness banner -/

lemma responseEvents_eq (response : List Char) :
    responseEvents response =
      (if extract_xml_content response (str "user_message") ≠ [] then
        [LoopEvent.assistantMessage (extract_xml_content response (str "user_message"))]
       else []) ++
      (if extract_xml_content response (str "ready_to_finalize") = str "yes" ∧
          pyFloatOk (extract_xml_content response (str "score")) = true then
        [LoopEvent.readyBanner (extract_xml_content response (str "score"))]
       else []) := by
  have hum := alist_get_parse response REFINEMENT_TAGS (str "user_message") (by decide)
  have hr := alist_get_parse response REFINEMENT_TAGS (str "ready_to_finalize") (by decide)
  have hs := alist_get_parse response REFINEMENT_TAGS (str "score") (by decide)
  simp only [responseEvents, hum, hr, hs, Option.getD_some, Option.some.injEq]

/-- C8: during a refinement turn the readiness notification is emitted if and
only if the parsed `ready_to_finalize` field is the literal `"yes"` and the
parsed `score` field is accepted by `float(...)`; any emitted banner carries
exactly the parsed score; and the loop's events for a round are exactly these
display events (a failed float parse merely suppresses the banner — the loop
itself proceeds normally). -/
theorem readiness_banner_iff (response : List Char) (st : LoopState)
    (user_input : List Char) :
    ((∃ s, LoopEvent.readyBanner s ∈ responseEvents response) ↔
      (extract_xml_content response (str "ready_to_finalize") = str "yes" ∧
       pyFloatOk (extract_xml_content response (str "score")) = true)) ∧
    (∀ s, LoopEvent.readyBanner s ∈ responseEvents response →
      s = extract_xml_content response (str "score")) ∧
    ((refinement_loop st [(response, user_input)]).events = responseEvents response) := by
  have he := responseEvents_eq response
  have hnotum : ∀ s, LoopEvent.readyBanner s ∈
      (if extract_xml_content response (str "user_message") ≠ [] then
        [LoopEvent.assistantMessage (extract_xml_content response (str "user_message"))]
       else []) → False := by
    intro s h1
    by_cases hum : extract_xml_content response (str "user_message") ≠ []
    · rw [if_pos hum] at h1; simp at h1
    · rw [if_neg hum] at h1; simp at h1
  refine ⟨⟨?_, ?_⟩, ?_, ?_⟩
  · rintro ⟨s, hs⟩
    rw [he] at hs
    rcases List.mem_append.mp hs with h1 | h2
    · exact absurd h1 (fun h => hnotum s h)
    · by_cases hc : extract_xml_content response (str "ready_to_finalize") = str "yes" ∧
          pyFloatOk (extract_xml_content response (str "score")) = true
      · exact hc
      · rw [if_neg hc] at h2; simp at h2
  · intro hc
    refine ⟨extract_xml_content response (str "score"), ?_⟩
    rw [he]
    apply List.mem_append_right
    rw [if_pos hc]
    exact List.mem_singleton_self _
  · intro s hs
    rw [he] at hs
    rcases List.mem_append.mp hs with h1 | h2
    · exact absurd h1 (fun h => hnotum s h)
    · by_cases hc : extract_xml_content response (str "ready_to_finalize") = str "yes" ∧
          pyFloatOk (extract_xml_content response (str "score")) = true
      · rw [if_pos hc] at h2
        simpa using h2
      · rw [if_neg hc] at h2; simp at h2
  · cases ht : isTerminationInput user_input with
    | true => rw [refinement_loop_cons_term st response user_input [] ht]
    | false =>
      rw [refinement_loop_cons_cont st response user_input [] ht]
      simp [refinement_loop_nil]

/-- Witness for C8: a parseable score emits the banner carrying that score;
an unparseable score suppresses it. -/
theorem readiness_banner_iff_witness :
    LoopEvent.readyBanner (str "0.85") ∈ responseEvents
      (str "<ready_to_finalize>yes</ready_to_finalize><score>0.85</score>") ∧
    ¬(∃ s, LoopEvent.readyBanner s ∈ responseEvents
      (str "<ready_to_finalize>yes</ready_to_finalize><score>bad</score>")) := by
  constructor
  · obtain ⟨s, hs⟩ := (readiness_banner_iff
      (str "<ready_to_finalize>yes</ready_to_finalize><score>0.85</score>")
      { messages := [], context_understanding := initialContextUnderstanding }
      []).1.mpr ⟨by decide, by decide⟩
    have heq := (readiness_banner_iff
      (str "<ready_to_finalize>yes</ready_to_finalize><score>0.85</score>")
      { messages := [], context_understanding := initialContextUnderstanding }
      []).2.1 s hs
    rw [heq] at hs
    rw [show extract_xml_content
        (str "<ready_to_finalize>yes</ready_to_finalize><score>0.85</score>")
        (str "score") = str "0.85" from by decide] at hs
    exact hs
  · rintro ⟨s, hs⟩
    exact absurd ((readiness_banner_iff
      (str "<ready_to_finalize>yes</ready_to_finalize><score>bad</score>")
      { messages := [], context_understanding := initialContextUnderstanding }
      []).1.mp ⟨s, hs⟩).2 (by decide)

/-! ## Claim C10: the loop's message history -/

/-- C10: the refinement loop never records the terminating input: every
message in the final history is either already in the initial history, an
assistant response, or a non-terminating user input; and when the loop
terminated, the last message of the history is the assistant response of one
of the rounds. -/
theorem loop_history_invariant (st : LoopState) (rounds : List (List Char × List Char)) :
    (∀ m ∈ (refinement_loop st rounds).final.messages,
      m ∈ st.messages ∨ m.role = str "assistant" ∨
        (m.role = str "user" ∧ isTerminationInput m.content = false)) ∧
    ((refinement_loop st rounds).terminated = true →
      ∃ ru ∈ rounds, (refinement_loop st rounds).final.messages.getLast? =
        some ⟨str "assistant", ru.1⟩) := by
  induction rounds generalizing st with
  | nil =>
    rw [refinement_loop_nil]
    exact ⟨fun m hm => Or.inl hm, fun h => absurd h (by simp)⟩
  | cons p rest ih =>
    obtain ⟨response, user_input⟩ := p
    cases ht : isTerminationInput user_input with
    | true =>
      rw [refinement_loop_cons_term st response user_input rest ht]
      constructor
      · intro m hm
        simp only [processResponse] at hm
        rcases List.mem_append.mp hm with h1 | h2
        · exact Or.inl h1
        · right; left
          rw [List.mem_singleton.mp h2]
      · intro _
        refine ⟨(response, user_input), List.mem_cons_self _ _, ?_⟩
        simp only [processResponse]
        exact List.getLast?_concat _
    | false =>
      rw [refinement_loop_cons_cont st response user_input rest ht]
      have ihn := ih (nextState st response user_input)
      constructor
      · intro m hm
        rcases ihn.1 m hm with h1 | h2 | h3
        · simp only [nextState, processResponse] at h1
          rcases List.mem_append.mp h1 with h4 | h5
          · rcases List.mem_append.mp h4 with h6 | h7
            · exact Or.inl h6
            · right; left
              rw [List.mem_singleton.mp h7]
          · right; right
            rw [List.mem_singleton.mp h5]
            exact ⟨rfl, ht⟩
        · exact Or.inr (Or.inl h2)
        · exact Or.inr (Or.inr h3)
      · intro hterm
        obtain ⟨ru, hmem, hl⟩ := ihn.2 hterm
        exact ⟨ru, List.mem_cons_of_mem _ hmem, hl⟩

/-- Witness for C10: after a loop ended by "finalize", the last history entry
is the assistant's final response and the terminating input was not recorded. -/
theorem loop_history_invariant_witness :
    (refinement_loop { messages := [], context_understanding := initialContextUnderstanding }
        [(str "a1", str "ok"), (str "a2", str "finalize")]).final.messages.getLast? =
      some ⟨str "assistant", str "a2"⟩ := by
  obtain ⟨ru, hmem, hl⟩ := (loop_history_invariant
    { messages := [], context_understanding := initialContextUnderstanding }
    [(str "a1", str "ok"), (str "a2", str "finalize")]).2 (by decide)
  rcases List.mem_cons.mp hmem with h | h
  · -- the first round does not terminate, so the last message cannot be its
    -- response: refute by computing the concrete history
    exfalso
    rw [h] at hl
    revert hl
    decide
  · rcases List.mem_singleton.mp h with h2
    rw [h2] at hl
    exact hl

/-! ## Claim C4: test-envelope extraction -/

lemma takeWhile_all_stop (f : Char → Bool) (a : List Char) (ha : ∀ c ∈ a, f c = true)
    (c : Char) (hc : f c = false) (b : List Char) :
    (a ++ c :: b).takeWhile f = a := by
  induction a with
  | nil =>
    rw [List.nil_append]
    exact List.takeWhile_cons_of_neg (by simp [hc])
  | cons d a' ih =>
    rw [List.cons_append, List.takeWhile_cons_of_pos (ha d (List.mem_cons_self _ _)),
      ih (fun x hx => ha x (List.mem_cons_of_mem _ hx))]

lemma tryMatchTest_nil : tryMatchTest [] = none := rfl

lemma tryMatchTest_rest_lt {s num content rest : List Char}
    (h : tryMatchTest s = some (num, content, rest)) : rest.length < s.length := by
  simp only [tryMatchTest] at h
  by_cases h1 : isPre opnTestLit s = true
  · rw [if_pos h1] at h
    by_cases h2 : ((s.drop opnTestLit.length).takeWhile isDigitCh).isEmpty = true
    · rw [if_pos h2] at h; cases h
    · rw [if_neg h2] at h
      by_cases h3 : isPre midTestLit ((s.drop opnTestLit.length).drop
          ((s.drop opnTestLit.length).takeWhile isDigitCh).length) = true
      · rw [if_pos h3] at h
        cases h4 : findSubAux clsTestLit (((s.drop opnTestLit.length).drop
            ((s.drop opnTestLit.length).takeWhile isDigitCh).length).drop
            midTestLit.length) 0 with
        | none => rw [h4] at h; cases h
        | some k =>
          rw [h4] at h
          simp only [Option.some.injEq, Prod.mk.injEq] at h
          obtain ⟨-, -, hrest⟩ := h
          have hs : opnTestLit.length ≤ s.length := isPre_length h1
          have hopn : opnTestLit.length = 14 := rfl
          rw [← hrest]
          simp only [List.length_drop]
          omega
      · rw [if_neg h3] at h; cases h
  · rw [if_neg h1] at h; cases h

lemma scanTestsFuel_ge : ∀ (fuel : Nat) (s : List Char), s.length ≤ fuel →
    scanTestsFuel fuel s = findallTests s := by
  intro fuel
  induction fuel using Nat.strong_induction_on with
  | _ fuel ih =>
    intro s hs
    cases fuel with
    | zero =>
      cases s with
      | nil => rfl
      | cons c t => simp at hs
    | succ f =>
      cases hm : tryMatchTest s with
      | some v =>
        obtain ⟨num, v2⟩ := v
        obtain ⟨content, rest⟩ := v2
        have hlt := tryMatchTest_rest_lt hm
        cases s with
        | nil => rw [tryMatchTest_nil] at hm; cases hm
        | cons c t =>
          have hs' : t.length ≤ f := by
            simp only [List.length_cons] at hs; omega
          have hlt' : rest.length ≤ t.length := by
            simp only [List.length_cons] at hlt; omega
          have h1 : scanTestsFuel (f + 1) (c :: t) =
              (num, content) :: scanTestsFuel f rest := by
            simp only [scanTestsFuel, hm]
          have h2 : findallTests (c :: t) =
              (num, content) :: scanTestsFuel t.length rest := by
            show scanTestsFuel (t.length + 1) (c :: t) = _
            simp only [scanTestsFuel, hm]
          rw [h1, h2]
          rw [ih f (by omega) rest (by omega), ih t.length (by omega) rest (by omega)]
      | none =>
        cases s with
        | nil => rfl
        | cons c t =>
          have hs' : t.length ≤ f := by
            simp only [List.length_cons] at hs; omega
          have h1 : scanTestsFuel (f + 1) (c :: t) = scanTestsFuel f t := by
            simp only [scanTestsFuel, hm]
          have h2 : findallTests (c :: t) = scanTestsFuel t.length t := by
            show scanTestsFuel (t.length + 1) (c :: t) = _
            simp only [scanTestsFuel, hm]
          rw [h1, h2, ih f (by omega) t hs']
          rfl

lemma findallTests_cons_none {c : Char} {t : List Char}
    (h : tryMatchTest (c :: t) = none) : findallTests (c :: t) = findallTests t := by
  show scanTestsFuel (t.length + 1) (c :: t) = findallTests t
  simp only [scanTestsFuel, h]
  rfl

lemma findallTests_match {s num content rest : List Char}
    (h : tryMatchTest s = some (num, content, rest)) :
    findallTests s = (num, content) :: findallTests rest := by
  cases s with
  | nil => rw [tryMatchTest_nil] at h; cases h
  | cons c t =>
    show scanTestsFuel (t.length + 1) (c :: t) = _
    simp only [scanTestsFuel, h]
    have hlt := tryMatchTest_rest_lt h
    simp only [List.length_cons] at hlt
    rw [scanTestsFuel_ge t.length rest (by omega)]

/-- No match of the scan can start inside separator text that does not
contain the opening literal, provided what follows is empty or starts with
`'<'`; so the scan just walks past it. -/
lemma findallTests_append_sep (sep rest : List Char)
    (hsep : occursIn opnTestLit sep = false)
    (hrest : rest = [] ∨ ∃ r, rest = '<' :: r) :
    findallTests (sep ++ rest) = findallTests rest := by
  induction sep with
  | nil => simp
  | cons c t ih =>
    have hsep' : isPre opnTestLit (c :: t) = false ∧ occursIn opnTestLit t = false := by
      simp only [occursIn, Bool.or_eq_false_iff] at hsep
      exact hsep
    have hnot : isPre opnTestLit ((c :: t) ++ rest) = false := by
      by_cases hlen : opnTestLit.length ≤ (c :: t).length
      · rw [Bool.eq_false_iff]
        intro hpre
        have hp := isPre_append_of_le rest hlen hpre
        rw [hsep'.1] at hp
        cases hp
      · push_neg at hlen
        exact isPre_not_span opnTestLit (c :: t) rest (by decide) (by simp) hlen hrest
    have hnone : tryMatchTest ((c :: t) ++ rest) = none := by
      simp only [tryMatchTest, hnot, Bool.false_eq_true, if_false]
    rw [List.cons_append] at hnone ⊢
    rw [findallTests_cons_none hnone]
    exact ih hsep'.2

/-- The scan, anchored at a well-formed envelope, matches exactly that
envelope and resumes right after its closing tag. -/
lemma tryMatchTest_env (e : TestEnv) (rest : List Char) (hwf : wfEnv e) :
    tryMatchTest (envText e ++ rest) = some (e.num, e.body, rest) := by
  obtain ⟨hnum, hdig, hbody⟩ := hwf
  have hassoc : envText e ++ rest =
      opnTestLit ++ (e.num ++ (midTestLit ++ (e.body ++ (clsTestLit ++ rest)))) := by
    simp [envText, List.append_assoc]
  have h1 : isPre opnTestLit (envText e ++ rest) = true := by
    rw [hassoc]; exact isPre_self_append _ _
  have hd1 : (envText e ++ rest).drop opnTestLit.length =
      e.num ++ (midTestLit ++ (e.body ++ (clsTestLit ++ rest))) := by
    rw [hassoc]; exact List.drop_left _ _
  have ht : (e.num ++ (midTestLit ++ (e.body ++ (clsTestLit ++ rest)))).takeWhile
      isDigitCh = e.num := by
    have hsh : midTestLit ++ (e.body ++ (clsTestLit ++ rest)) =
        '\x22' :: ('>' :: (e.body ++ (clsTestLit ++ rest))) := rfl
    rw [hsh]
    exact takeWhile_all_stop isDigitCh e.num hdig '\x22' (by decide) _
  have hne : e.num.isEmpty = false := by
    cases hnn : e.num with
    | nil => exact absurd hnn hnum
    | cons a b => rfl
  have hd2 : (e.num ++ (midTestLit ++ (e.body ++ (clsTestLit ++ rest)))).drop
      e.num.length = midTestLit ++ (e.body ++ (clsTestLit ++ rest)) :=
    List.drop_left _ _
  have h2 : isPre midTestLit (midTestLit ++ (e.body ++ (clsTestLit ++ rest))) = true :=
    isPre_self_append _ _
  have hd3 : (midTestLit ++ (e.body ++ (clsTestLit ++ rest))).drop midTestLit.length =
      e.body ++ (clsTestLit ++ rest) := List.drop_left _ _
  have h4 : findSubAux clsTestLit (e.body ++ (clsTestLit ++ rest)) 0 =
      some e.body.length := by
    have := findSubAux_eq_some_of clsTestLit (e.body ++ (clsTestLit ++ rest)) 0
      e.body.length
      (by
        rw [List.drop_left]
        exact isPre_self_append _ _)
      (by
        intro j hj
        have hdropj : (e.body ++ (clsTestLit ++ rest)).drop j =
            e.body.drop j ++ (clsTestLit ++ rest) := by
          rw [List.drop_append_eq_append_drop,
            Nat.sub_eq_zero_of_le (Nat.le_of_lt hj), List.drop_zero]
        rw [hdropj]
        by_cases hlen : clsTestLit.length ≤ (e.body.drop j).length
        · rw [Bool.eq_false_iff]
          intro hpre
          have hp := isPre_append_of_le _ hlen hpre
          have hb := (occursIn_false_iff clsTestLit e.body).mp hbody j
          rw [hp] at hb
          cases hb
        · push_neg at hlen
          refine isPre_not_span clsTestLit (e.body.drop j) (clsTestLit ++ rest)
            (by decide) ?_ hlen (Or.inr ⟨str "/test>" ++ rest, rfl⟩)
          apply List.ne_nil_of_length_pos
          rw [List.length_drop]
          omega)
    simpa using this
  have h5 : (e.body ++ (clsTestLit ++ rest)).take e.body.length = e.body :=
    List.take_left _ _
  have h6 : (e.body ++ (clsTestLit ++ rest)).drop (e.body.length + clsTestLit.length) =
      rest := by
    rw [← List.drop_drop, List.drop_left, List.drop_left]
  simp only [tryMatchTest, h1, if_true, hd1, ht, hne, Bool.false_eq_true, if_false,
    hd2, h2, hd3, h4, h5, h6]

lemma findallTests_env (e : TestEnv) (rest : List Char) (hwf : wfEnv e) :
    findallTests (envText e ++ rest) = (e.num, e.body) :: findallTests rest :=
  findallTests_match (tryMatchTest_env e rest hwf)

lemma envText_head (e : TestEnv) (x : List Char) :
    ∃ r, envText e ++ x = '<' :: r := by
  refine ⟨str "test number=\x22" ++
    (e.num ++ (midTestLit ++ (e.body ++ (clsTestLit ++ x)))), ?_⟩
  have hopn : opnTestLit = '<' :: str "test number=\x22" := rfl
  simp [envText, hopn, List.append_assoc]

/-- The scan over interleaved separators and well-formed envelopes returns
exactly the envelopes' captured groups, in order. -/
lemma findallTests_assemble (sep0 : List Char) (ps : List (TestEnv × List Char))
    (hsep0 : occursIn opnTestLit sep0 = false)
    (hps : ∀ p ∈ ps, wfEnv p.1 ∧ occursIn opnTestLit p.2 = false) :
    findallTests (assembleTests sep0 ps) = ps.map fun p => (p.1.num, p.1.body) := by
  induction ps generalizing sep0 with
  | nil =>
    have h := findallTests_append_sep sep0 [] hsep0 (Or.inl rfl)
    simpa using h
  | cons p ps ih =>
    obtain ⟨e, sep⟩ := p
    have hshape : assembleTests sep0 ((e, sep) :: ps) =
        sep0 ++ (envText e ++ assembleTests sep ps) := by
      simp [assembleTests, List.append_assoc]
    rw [hshape]
    rw [findallTests_append_sep sep0 (envText e ++ assembleTests sep ps) hsep0
      (Or.inr (envText_head e _))]
    rw [findallTests_env e _ (hps (e, sep) (List.mem_cons_self _ _)).1]
    rw [ih sep (hps (e, sep) (List.mem_cons_self _ _)).2
      (fun q hq => hps q (List.mem_cons_of_mem _ hq))]
    rfl

/-- C4: for every response built of exactly N well-formed numbered test
envelopes interspersed with unrelated separator text (text free of the
envelope-opening literal), extraction returns exactly N triples, in order of
occurrence, each obtained from its own body and ignoring the captured
number; and a response with zero envelopes yields the empty sequence rather
than an error. -/
theorem test_extraction_count (sep0 : List Char) (ps : List (TestEnv × List Char))
    (response : List Char)
    (hsep0 : occursIn opnTestLit sep0 = false)
    (hps : ∀ p ∈ ps, wfEnv p.1 ∧ occursIn opnTestLit p.2 = false)
    (hzero : occursIn opnTestLit response = false) :
    generate_test_cases (assembleTests sep0 ps) =
      (ps.map fun p =>
        (extract_xml_content p.1.body (str "scenario"),
         extract_xml_content p.1.body (str "input"),
         extract_xml_content p.1.body (str "expected_behavior"))) ∧
    (generate_test_cases (assembleTests sep0 ps)).length = ps.length ∧
    generate_test_cases response = [] := by
  have hmain := findallTests_assemble sep0 ps hsep0 hps
  refine ⟨?_, ?_, ?_⟩
  · rw [generate_test_cases, hmain, List.map_map]
    rfl
  · rw [generate_test_cases, hmain, List.map_map]
    simp
  · have hresp : findallTests response = [] := by
      have h := findallTests_append_sep response [] hzero (Or.inl rfl)
      simpa using h
    rw [generate_test_cases, hresp]
    rfl

/-- Witness for C4: two concrete envelopes between unrelated text yield
exactly their two triples in order, and an envelope-free response yields the
empty sequence. -/
theorem test_extraction_count_witness :
    generate_test_cases (assembleTests (str "intro ") sampleEnvs) =
      [(str "s1", str "i1", str "e1"), (str "s2", [], [])] ∧
    generate_test_cases (str "no tests at all") = [] := by
  constructor
  · have h := (test_extraction_count (str "intro ") sampleEnvs
      (str "no tests at all") (by decide) (by decide) (by decide)).1
    exact h.trans (by decide)
  · exact (test_extraction_count (str "x") [] (str "no tests at all")
      (by decide) (by decide) (by decide)).2.2

end PromptOptimizer
